import Mathlib

/-!
Shallow embedding of DeerLab's separable nonlinear least-squares solver
(`deerlab/snlls.py`) and its helper `_augment`, together with theorems
checking the natural-language specification against the code.

Conventions of the embedding:
* numpy 1-D arrays become `List ℚ` (or `List ℝ` where the source applies
  `sqrt`/fractional powers), 2-D arrays become `List (List _)` (row major);
* `±np.inf` entries of bound vectors become the dedicated type `ERat`;
* Python exceptions become an `Except SnllsError _` result; a Python
  fall-through that leaves a local variable unbound (so that its later use
  raises `UnboundLocalError`) becomes an `Option` that is `none`;
* the external collaborators (`dl.selregparam`, `dl.lsqcomponents`, the
  linear solvers, `dl.utils.multistarts`, `dl.uqst`) are passed in as
  function arguments or modelled from the spec where a claim needs them.
-/

namespace DeerLab

/-- Extended rationals: model of a float that may be `-inf` or `+inf`,
used for the bound vectors `lb`, `ub`, `lbl`, `ubl` of `snlls`. -/
inductive ERat where
  | negInf : ERat
  | posInf : ERat
  | val : ℚ → ERat
deriving DecidableEq, Repr

namespace ERat

/-- Strict comparison `a < b` with IEEE semantics on infinities
(model of numpy elementwise `<` on floats). -/
def ltb : ERat → ERat → Bool
  | negInf, negInf => false
  | negInf, _ => true
  | _, negInf => false
  | posInf, _ => false
  | val _, posInf => true
  | val a, val b => decide (a < b)

/-- Model of `np.isinf` on a single entry. -/
def isInf : ERat → Bool
  | negInf => true
  | posInf => true
  | val _ => false

end ERat

/-- Error taxonomy of the spec, mapped onto the exceptions the Python
code raises: `dimensionMismatch` is the `TypeError` of the bound-length
checks, `invalidBounds` the `ValueError` for `ub < lb`, `startOutOfBounds`
the `ValueError` for `par0` outside the box, and `configurationError` the
`TypeError` of the multi-start guard. -/
inductive SnllsError where
  | dimensionMismatch : SnllsError
  | invalidBounds : SnllsError
  | startOutOfBounds : SnllsError
  | configurationError : SnllsError
deriving DecidableEq, Repr

/-- Elementwise `np.any(a < b)` for two equally long float vectors. -/
def anyLt (a b : List ERat) : Bool :=
  (a.zip b).any fun q => ERat.ltb q.1 q.2

/-- Model of `np.linalg.cond(A0) > 10`: the condition number is computed by
numpy (external); the embedding takes its value as an input. -/
def illConditioned (condA0 : ℚ) : Bool :=
  decide (condA0 > 10)

/-- Lines 117-122 of `snlls.py`: decide whether a regularization penalty is
included.  `penalty` is the keyword argument (`None`/`True`/`False`,
embedded as `Option Bool`); the Python `includePenalty = penalty` branch
makes a `None` result falsy, which the embedding renders by `getD false`. -/
def includePenaltyFlag (condA0 : ℚ) (penalty : Option Bool) : Bool :=
  if illConditioned condA0 && decide (penalty = none) then true
  else penalty.getD false

/-- Lines 126-149 of `snlls.py`: defaulting of empty bound vectors to
`±inf` followed by the four validation checks, in source order.  Returns
the resolved bound vectors on success. -/
def validateBounds (par0 : List ℚ) (lb ub lbl ubl : List ERat) (Nlin : ℕ) :
    Except SnllsError (List ERat × List ERat × List ERat × List ERat) :=
  let Nnonlin := par0.length
  let lb := if lb.length = 0 then List.replicate Nnonlin ERat.negInf else lb
  let ub := if ub.length = 0 then List.replicate Nnonlin ERat.posInf else ub
  let lbl := if lbl.length = 0 then List.replicate Nlin ERat.negInf else lbl
  let ubl := if ubl.length = 0 then List.replicate Nlin ERat.posInf else ubl
  if lb.length ≠ Nnonlin ∨ ub.length ≠ Nnonlin then
    Except.error SnllsError.dimensionMismatch
  else if lbl.length ≠ Nlin ∨ ubl.length ≠ Nlin then
    Except.error SnllsError.dimensionMismatch
  else if anyLt ub lb ∨ anyLt ubl lbl then
    Except.error SnllsError.invalidBounds
  else if anyLt ub (par0.map ERat.val) ∨ anyLt (par0.map ERat.val) lb then
    Except.error SnllsError.startOutOfBounds
  else
    Except.ok (lb, ub, lbl, ubl)

/-- The orchestration after validation: the solver phase (everything from
line 153 of `snlls.py` on) runs only when validation succeeded.  The solver
phase is abstracted as a function of the resolved bounds, so the theorem
about validation failure quantifies over every possible solver. -/
def snllsValidated {β : Type} (par0 : List ℚ) (lb ub lbl ubl : List ERat)
    (Nlin : ℕ)
    (solverPhase : List ERat × List ERat × List ERat × List ERat → β) :
    Except SnllsError β :=
  (validateBounds par0 lb ub lbl ubl Nlin).map solverPhase

/-- The `regparam` keyword of `snlls`: either the name of a selection
method (a Python `str`) or a fixed numeric value of `α`. -/
inductive RegParam where
  | method : String → RegParam
  | fixed : ℚ → RegParam
deriving DecidableEq, Repr

/-- The mutable closure state of `ResidualsFcn` (lines 192-195 of
`snlls.py`): the `check` flag, the previously accepted nonlinear parameter
vector `par_prev`, and the previously selected `regparam_prev`. -/
structure IterState where
  check : Bool
  par_prev : List ℚ
  regparam_prev : ℚ
deriving DecidableEq, Repr

/-- Initial closure state: `check = False`, `par_prev = [0]*len(par0)`,
`regparam_prev = 0`. -/
def initState (Nnonlin : ℕ) : IterState :=
  { check := false, par_prev := List.replicate Nnonlin 0, regparam_prev := 0 }

/-- Line 213 of `snlls.py`: `check and all(abs(par_prev-p)/p < alphaOptThreshold)`,
the condition under which the cached `α` is reused.  The division is by the
new candidate `p`, exactly as in the source. -/
def reuseCond (st : IterState) (p : List ℚ) (thr : ℚ) : Bool :=
  st.check && (st.par_prev.zip p).all fun q => decide (|q.1 - q.2| / q.2 < thr)

/-- Default of the `alphaOptThreshold` keyword in the `snlls` signature. -/
def alphaOptThresholdDefault : ℚ := 1 / 1000

/-- Lines 210-230 of `snlls.py`: the per-call choice of `α` and the update
of the closure state.  `selreg` abstracts the external collaborator
`dl.selregparam` (a function of the candidate `p` through `A = Amodel(p)`).
Returns the chosen `α`, the state after the call, and whether `selregparam`
was invoked on this call. -/
def alphaUpdate (selreg : List ℚ → ℚ) (regparam : RegParam) (thr : ℚ)
    (includePenalty : Bool) (st : IterState) (p : List ℚ) :
    ℚ × IterState × Bool :=
  if includePenalty then
    match regparam with
    | RegParam.method _ =>
      if reuseCond st p thr then
        (st.regparam_prev,
         { check := st.check, par_prev := p, regparam_prev := st.regparam_prev },
         false)
      else
        let alpha := selreg p
        (alpha, { check := true, par_prev := p, regparam_prev := alpha }, true)
    | RegParam.fixed v =>
      (v, { check := st.check, par_prev := p, regparam_prev := v }, false)
  else
    (0, st, false)

/-- Line 154 of `snlls.py`:
`nonLinearConstrained = (not np.all(np.isinf(lb))) or (not np.all(np.isinf(ub)))`. -/
def nonLinearConstrained (lb ub : List ERat) : Bool :=
  !(lb.all ERat.isInf) || !(ub.all ERat.isInf)

/-- Lines 254-255 of `snlls.py`: the multi-start guard, raising a
`TypeError` (the spec's ConfigurationError) when `multiStarts > 1` and the
nonlinear problem is unconstrained. -/
def multiStartCheck (multiStarts : ℕ) (lb ub : List ERat) :
    Except SnllsError Unit :=
  if decide (multiStarts > 1) && !nonLinearConstrained lb ub then
    Except.error SnllsError.configurationError
  else
    Except.ok ()

/-- First index of the minimum of a list (model of `np.argmin`, which
returns the first occurrence of the minimum on ties). -/
def argmin : List ℚ → ℕ
  | [] => 0
  | [_] => 0
  | x :: y :: rest =>
      if (y :: rest).getD (argmin (y :: rest)) 0 < x then argmin (y :: rest) + 1
      else 0

/-- The `for par0 in multiStartPar0` loop of lines 262-267 of `snlls.py`.
`solveAttempt` abstracts one `least_squares` run together with the closure
state it threads: it takes the starting point and the closure state at
entry and returns `(sol.x, linfit, sol.cost, state at exit)`.  The loop
appends `(sol.x, linfit, sol.cost)` for each seed (the accumulators
`nonlinfits`, `linfits`, `fvals` of the source, kept here as one list of
triples) and threads the single, shared closure state from one attempt into
the next. -/
def runAttempts
    (solveAttempt : List ℚ → IterState → List ℚ × List ℚ × ℚ × IterState) :
    List (List ℚ) → IterState → List (List ℚ × List ℚ × ℚ) × IterState
  | [], st0 => ([], st0)
  | s :: rest, st0 =>
      let (x, lin, cost, st1) := solveAttempt s st0
      let (tl, stF) := runAttempts solveAttempt rest st1
      ((x, lin, cost) :: tl, stF)

/-- Lines 259-271 of `snlls.py`: run all multi-start attempts, then select
the global minimum with `globmin = np.argmin(fvals)` and return
`(nonlinfits[globmin], linfits[globmin])`. -/
def multiStartLoop
    (solveAttempt : List ℚ → IterState → List ℚ × List ℚ × ℚ × IterState)
    (seeds : List (List ℚ)) (st0 : IterState) :
    List ℚ × List ℚ :=
  let (results, _) := runAttempts solveAttempt seeds st0
  let fvals := results.map fun r => r.2.2
  let globmin := argmin fvals
  ((results.getD globmin ([], [], 0)).1, (results.getD globmin ([], [], 0)).2.1)

/-- State of the shared `ResidualsFcn` closure after a prefix of multi-start
attempts, where each attempt is represented by the list of candidate
vectors the nonlinear solver evaluates during it.  The state is created
once (lines 192-195) and never re-initialized inside the loop. -/
def stateAfterAttempts (selreg : List ℚ → ℚ) (regparam : RegParam)
    (thr : ℚ) (includePenalty : Bool) (Nnonlin : ℕ)
    (attempts : List (List (List ℚ))) : IterState :=
  attempts.foldl
    (fun st ps =>
      ps.foldl (fun s p => (alphaUpdate selreg regparam thr includePenalty s p).2.1) st)
    (initState Nnonlin)

/-- Modelled from the spec: the multi-start seed generator
`dl.utils.multistarts` (its code is not under `src/`), which per §4.4
deterministically generates `numStarts` seed vectors within `[lb,ub]`;
for a single start the start value `par0` itself is used.  The model places
seed `j` at fraction `(j+1)/(numStarts+1)` between the bounds. -/
def multistarts (numStarts : ℕ) (par0 : List ℚ) (lb ub : List ℚ) :
    List (List ℚ) :=
  if numStarts ≤ 1 then [par0]
  else
    (List.range numStarts).map fun j : ℕ =>
      (lb.zip ub).map fun q =>
        q.1 + (((j : ℚ) + 1) / ((numStarts : ℚ) + 1)) * (q.2 - q.1)

/-- The three interchangeable non-negative least-squares backends of
lines 181-189 of `snlls.py`. -/
inductive NNLSBackend where
  | fnnls : NNLSBackend
  | nnlsbpp : NNLSBackend
  | cvx : NNLSBackend
deriving DecidableEq, Repr

/-- Lines 183-188 of `snlls.py`: the `if/elif/elif` dispatch on the
`nnlsSolver` string.  There is no `else` branch: an unrecognized name
leaves the local `linSolver` unbound, which the embedding renders as
`none` (its later call raises a Python `UnboundLocalError`, not a
configuration error). -/
def selectNNLS (nnlsSolver : String) : Option NNLSBackend :=
  if nnlsSolver = "fnnls" then some NNLSBackend.fnnls
  else if nnlsSolver = "nnlsbpp" then some NNLSBackend.nnlsbpp
  else if nnlsSolver = "cvx" then some NNLSBackend.cvx
  else none

/-- Line 155 of `snlls.py`:
`linearConstrained = (not np.all(np.isinf(lbl))) or (not np.all(np.isinf(ubl)))`. -/
def linearConstrainedFlag (lbl ubl : List ERat) : Bool :=
  !(lbl.all ERat.isInf) || !(ubl.all ERat.isInf)

/-- Line 157 of `snlls.py`:
`nonNegativeOnly = (np.all(lbl==0)) and (np.all(np.isinf(ubl)))`. -/
def nonNegativeOnlyFlag (lbl ubl : List ERat) : Bool :=
  (lbl.all fun e => decide (e = ERat.val 0)) && (ubl.all ERat.isInf)

/-- The linear-subproblem solver selected by lines 171-189 of `snlls.py`. -/
inductive LinSolverChoice where
  | directSolve : LinSolverChoice
  | bvls : LinSolverChoice
  | nnls : NNLSBackend → LinSolverChoice
deriving DecidableEq, Repr

/-- Lines 171-189 of `snlls.py`: choice of the linear solver.  In the
non-negative branch an unrecognized `nnlsSolver` string leaves `linSolver`
unbound (`none`); no exception is raised at this point. -/
def prepareLinSolver (lbl ubl : List ERat) (nnlsSolver : String) :
    Option LinSolverChoice :=
  if !linearConstrainedFlag lbl ubl then
    some LinSolverChoice.directSolve
  else if linearConstrainedFlag lbl ubl && !nonNegativeOnlyFlag lbl ubl then
    some LinSolverChoice.bvls
  else
    (selectNNLS nnlsSolver).map LinSolverChoice.nnls

/-- Concrete stand-in for the external `dl.selregparam` collaborator, used
only in closed witness statements. -/
def selregDemo : List ℚ → ℚ := fun _ => 5

/-- Lines 302-313 of `snlls.py`: the confidence-interval wrapper.
`paramci` stands for the interval matrix `paramuq_.ci(coverage)` of the
joint parameter set, computed by the external `dl.uqst` collaborator (per
the spec it has `Nnonlin + Nlin` rows); the selector keeps the first
`Nnonlin` rows for `'nonlin'`, drops them for `'lin'`, and returns the
matrix unchanged for any other selector value. -/
def ciSlice (Nnonlin : ℕ) (paramci : List (List ℚ)) (ty : String) :
    List (List ℚ) :=
  if ty = "nonlin" then paramci.take Nnonlin
  else if ty = "lin" then paramci.drop Nnonlin
  else paramci

/-- Dot product of two real vectors (model of a numpy row-by-vector
product). -/
noncomputable def dot (x y : List ℝ) : ℝ :=
  ((x.zip y).map fun q => q.1 * q.2).sum

/-- Matrix-vector product `A @ x` for a row-major matrix. -/
noncomputable def matVec (A : List (List ℝ)) (x : List ℝ) : List ℝ :=
  A.map fun row => dot row x

/-- Machine epsilon `np.finfo(float).eps` of IEEE double precision. -/
noncomputable def machineEps : ℝ := 2 ^ (-52 : ℤ)

/-- Lines 333-365 of `snlls.py`: `_augment`.  Computes the penalty residual
`resreg` and penalty Jacobian `Jreg` of the selected penalty type on
`r = L @ x` (the Jacobian is row `i` of `L` scaled by a factor depending on
`r i`), scales both by `alpha`, appends `resreg` below the residual and,
when a Jacobian is supplied, appends `[zeros(rows L, Nnonlin) | Jreg]`
below it.  The `if/elif/elif` on `regtype` has no `else`: an unknown type
leaves `resreg` unbound (a later `UnboundLocalError`), rendered as `none`. -/
noncomputable def augment (res : List ℝ) (J : Option (List (List ℝ)))
    (regtype : String) (alpha : ℝ) (L : List (List ℝ)) (x : List ℝ)
    (eta : ℝ) (Nnonlin : ℕ) : Option (List ℝ × Option (List (List ℝ))) :=
  let r := matVec L x
  let branch : Option (List ℝ × List (List ℝ)) :=
    if regtype = "tikhonov" then
      some (r, L)
    else if regtype = "tv" then
      some (r.map fun t => (t ^ 2 + machineEps) ^ ((1 : ℝ) / 4),
            (r.zip L).map fun q =>
              q.2.map fun e =>
                (2 / 4 * ((q.1 ^ 2 + machineEps) ^ (-(3 : ℝ) / 4) * q.1)) * e)
    else if regtype = "huber" then
      some (r.map fun t => Real.sqrt (Real.sqrt ((t / eta) ^ 2 + 1) - 1),
            (r.zip L).map fun q =>
              q.2.map fun e =>
                (0.5 / eta ^ 2 *
                  ((Real.sqrt ((q.1 / eta) ^ 2 + 1) - 1 + machineEps) ^ (-(1 : ℝ) / 2) *
                    ((q.1 / eta) ^ 2 + 1 + machineEps) ^ (-(1 : ℝ) / 2) * q.1)) * e)
    else none
  branch.map fun b =>
    let resreg := b.1.map fun t => alpha * t
    let Jreg := b.2.map fun row => row.map fun e => alpha * e
    let res1 := res ++ resreg
    match J with
    | none => (res1, none)
    | some Jm =>
        (res1, some (Jm ++ Jreg.map fun row => List.replicate Nnonlin (0 : ℝ) ++ row))

/-- Lines 240-247 of `snlls.py`, the tail of `ResidualsFcn` once the linear
subproblem has produced `linfit`: form `res = A @ linfit - y`; if a penalty
is included, append `alpha * L @ linfit` and then pass the result through
`_augment` with an empty Jacobian, returning its residual output. -/
noncomputable def residualsVector (includePenalty : Bool) (regtype : String)
    (alpha : ℝ) (A L : List (List ℝ)) (linfit y : List ℝ) (eta : ℝ)
    (Nnonlin : ℕ) : Option (List ℝ) :=
  let yfit := matVec A linfit
  let res := (yfit.zip y).map fun q => q.1 - q.2
  if includePenalty then
    let pen := (matVec L linfit).map fun t => alpha * t
    let res1 := res ++ pen
    (augment res1 none regtype alpha L linfit eta Nnonlin).map Prod.fst
  else
    some res

/-- Per-component penalty residual of §4.2 of the spec, for `r` a component
of `L·x` (used only to compare the spec's formulas against `_augment`). -/
noncomputable def penaltyResidualSpec (regtype : String) (alpha r eta : ℝ) : ℝ :=
  if regtype = "tikhonov" then alpha * r
  else if regtype = "tv" then alpha * (r ^ 2 + machineEps) ^ ((1 : ℝ) / 4)
  else if regtype = "huber" then
    alpha * Real.sqrt (Real.sqrt ((r / eta) ^ 2 + 1) - 1)
  else 0

/-- Per-component penalty Jacobian factor of §4.2 of the spec: row `i` of
the penalty Jacobian is this factor at `r i` times row `i` of `L` (used
only to compare the spec's formulas against `_augment`). -/
noncomputable def penaltyJacobianFactorSpec (regtype : String) (alpha r eta : ℝ) : ℝ :=
  if regtype = "tikhonov" then alpha
  else if regtype = "tv" then
    alpha * (1 / 2) * (r ^ 2 + machineEps) ^ (-(3 : ℝ) / 4) * r
  else if regtype = "huber" then
    alpha * (1 / (2 * eta ^ 2)) *
      (Real.sqrt ((r / eta) ^ 2 + 1) - 1 + machineEps) ^ (-(1 : ℝ) / 2) *
      ((r / eta) ^ 2 + 1 + machineEps) ^ (-(1 : ℝ) / 2) * r
  else 0

/-- Concrete stand-in for one `least_squares` attempt, used only in closed
witness statements: returns the seed as solution, `[1]` as linear fit, the
seed's head as final cost, and leaves the closure state unchanged. -/
def solveDemo : List ℚ → IterState → List ℚ × List ℚ × ℚ × IterState :=
  fun p st => (p, [1], p.headD 0, st)

/-- C3: `snlls` enables the regularization penalty automatically if and
only if the condition number of `A0 = Amodel(par0)` exceeds the fixed
threshold 10 and the caller passed `penalty=None`; `penalty=False` disables
the penalty regardless of conditioning, and `penalty=True` enables it
regardless of conditioning. -/
theorem penalty_gate (condA0 : ℚ) :
    (includePenaltyFlag condA0 none = true ↔ 10 < condA0)
    ∧ includePenaltyFlag condA0 (some false) = false
    ∧ includePenaltyFlag condA0 (some true) = true := by
  refine ⟨?_, ?_, ?_⟩ <;> simp [includePenaltyFlag, illConditioned]

/-- C10: calling the confidence-interval wrapper with any selector string
other than `'nonlin'` and `'lin'` (including `'full'`, the empty string or
a misspelled selector) returns the full interval matrix of the joint
parameter set, with all `Nnonlin + Nlin` rows; no error is raised. -/
theorem ci_unknown_selector (Nnonlin Nlin : ℕ) (paramci : List (List ℚ))
    (s : String) (hrows : paramci.length = Nnonlin + Nlin)
    (h1 : s ≠ "nonlin") (h2 : s ≠ "lin") :
    ciSlice Nnonlin paramci s = paramci
    ∧ (ciSlice Nnonlin paramci s).length = Nnonlin + Nlin := by
  refine ⟨?_, ?_⟩ <;> simp [ciSlice, h1, h2, hrows]

/-- Witness for `ci_unknown_selector` at the selector `'full'` and a
concrete 2-row interval matrix. -/
theorem ci_unknown_selector_witness :
    ciSlice 1 [[(1:ℚ), 2], [3, 4]] "full" = [[(1:ℚ), 2], [3, 4]]
    ∧ (ciSlice 1 [[(1:ℚ), 2], [3, 4]] "full").length = 1 + 1 :=
  ci_unknown_selector 1 1 [[1, 2], [3, 4]] "full" rfl (by decide) (by decide)

/-- C6: for every coverage level, `ci(coverage,'nonlin')` equals exactly
the first `Nnonlin` rows of `ci(coverage,'full')` and `ci(coverage,'lin')`
exactly the remaining `Nlin` rows, the two slices partitioning the full
matrix. -/
theorem ci_slicing (Nnonlin Nlin : ℕ) (paramci : List (List ℚ))
    (hrows : paramci.length = Nnonlin + Nlin) :
    ciSlice Nnonlin paramci "nonlin" = (ciSlice Nnonlin paramci "full").take Nnonlin
    ∧ ciSlice Nnonlin paramci "lin" = (ciSlice Nnonlin paramci "full").drop Nnonlin
    ∧ (ciSlice Nnonlin paramci "nonlin").length = Nnonlin
    ∧ (ciSlice Nnonlin paramci "lin").length = Nlin
    ∧ ciSlice Nnonlin paramci "nonlin" ++ ciSlice Nnonlin paramci "lin"
        = ciSlice Nnonlin paramci "full" := by
  refine ⟨?_, ?_, ?_, ?_, ?_⟩ <;>
    simp [ciSlice, hrows, List.take_append_drop, Nat.min_eq_left (Nat.le_add_right Nnonlin Nlin)]

/-- Witness for `ci_slicing` with one nonlinear and one linear row. -/
theorem ci_slicing_witness :
    ciSlice 1 [[(5:ℚ)], [7]] "nonlin" = (ciSlice 1 [[(5:ℚ)], [7]] "full").take 1
    ∧ ciSlice 1 [[(5:ℚ)], [7]] "lin" = (ciSlice 1 [[(5:ℚ)], [7]] "full").drop 1
    ∧ (ciSlice 1 [[(5:ℚ)], [7]] "nonlin").length = 1
    ∧ (ciSlice 1 [[(5:ℚ)], [7]] "lin").length = 1
    ∧ ciSlice 1 [[(5:ℚ)], [7]] "nonlin" ++ ciSlice 1 [[(5:ℚ)], [7]] "lin"
        = ciSlice 1 [[(5:ℚ)], [7]] "full" :=
  ci_slicing 1 1 [[5], [7]] rfl

/-- C1 (evaluation at the failing input): with a penalty included,
`ResidualsFcn` first appends `alpha * L @ linfit` to the data residual and
then passes the result through `_augment`, which appends the penalty
residual again — so the penalty block appears twice.  At
`A = [[1]], L = [[1]], linfit = [1], y = [0], alpha = 1` (tikhonov) the
returned vector is `[1, 1, 1]`: the data residual `A@x - y = [1]` followed
by TWO copies of the penalty row `alpha*L@x = [1]`, where the spec's single
augmentation would give `[1, 1]`.  Without a penalty the plain data
residual is returned unchanged. -/
theorem residuals_double_penalty_eval :
    residualsVector true "tikhonov" 1 [[1]] [[1]] [1] [0] 1 1 = some [1, 1, 1]
    ∧ residualsVector false "tikhonov" 1 [[1]] [[1]] [1] [0] 1 1 = some [1] := by
  constructor <;> simp [residualsVector, augment, matVec, dot]

/-- C2: with a penalty included and `regparam` a named selection method,
the cached `α` is reused (the selection routine is skipped) if and only if
a previous selection has occurred (`check`) and every component satisfies
`|par_prev - p| / p < alphaOptThreshold`, the division being by the new
candidate `p`; on reuse the cached value is returned and re-cached with
`p`, otherwise `selregparam` is invoked and its result cached together
with `p` (and `check` set).  The default threshold is `1e-3`. -/
theorem alpha_cache_reuse (selreg : List ℚ → ℚ) (s : String) (thr : ℚ)
    (st : IterState) (p : List ℚ) :
    ((alphaUpdate selreg (RegParam.method s) thr true st p).2.2 = false
       ↔ st.check = true ∧ ∀ q ∈ st.par_prev.zip p, |q.1 - q.2| / q.2 < thr)
    ∧ ((alphaUpdate selreg (RegParam.method s) thr true st p).2.2 = false →
         (alphaUpdate selreg (RegParam.method s) thr true st p).1 = st.regparam_prev
         ∧ (alphaUpdate selreg (RegParam.method s) thr true st p).2.1.par_prev = p
         ∧ (alphaUpdate selreg (RegParam.method s) thr true st p).2.1.regparam_prev
             = st.regparam_prev)
    ∧ ((alphaUpdate selreg (RegParam.method s) thr true st p).2.2 = true →
         (alphaUpdate selreg (RegParam.method s) thr true st p).1 = selreg p
         ∧ (alphaUpdate selreg (RegParam.method s) thr true st p).2.1
             = { check := true, par_prev := p, regparam_prev := selreg p })
    ∧ alphaOptThresholdDefault = 1 / 1000 := by
  by_cases h : reuseCond st p thr
  · have hc := h
    rw [reuseCond, Bool.and_eq_true] at hc
    refine ⟨?_, ?_, ?_, rfl⟩
    · simp only [alphaUpdate, h, if_true]
      simp only [List.all_eq_true, decide_eq_true_eq] at hc
      simpa using hc
    · intro _
      simp [alphaUpdate, h]
    · intro hfalse
      simp [alphaUpdate, h] at hfalse
  · have hc := h
    rw [reuseCond, Bool.and_eq_true] at hc
    refine ⟨?_, ?_, ?_, rfl⟩
    · simp only [alphaUpdate, h, if_false]
      simp only [List.all_eq_true, decide_eq_true_eq] at hc
      simpa using hc
    · intro hfalse
      simp [alphaUpdate, h] at hfalse
    · intro _
      simp [alphaUpdate, h]

/-- Witness for `alpha_cache_reuse`: a cached state with `check` set and an
unchanged candidate reuses `α = 7`; the fresh initial state invokes the
selection routine (`selregDemo`, returning 5). -/
theorem alpha_cache_reuse_witness :
    (alphaUpdate selregDemo (RegParam.method "aic") (1 / 1000) true
        { check := true, par_prev := [1], regparam_prev := 7 } [1]).1 = 7
    ∧ (alphaUpdate selregDemo (RegParam.method "aic") (1 / 1000) true
        (initState 1) [1]).1 = 5 := by
  constructor
  · exact ((alpha_cache_reuse selregDemo "aic" (1 / 1000)
      { check := true, par_prev := [1], regparam_prev := 7 } [1]).2.1
        (by simp [alphaUpdate, reuseCond])).1
  · exact (((alpha_cache_reuse selregDemo "aic" (1 / 1000)
      (initState 1) [1]).2.2.1
        (by simp [alphaUpdate, reuseCond, initState])).1).trans rfl

/-- C9 counterexample: with the unknown solver name `'foo'` (non-negative
branch) and the unknown penalty type `'foo'`, no error of any kind is
raised at the point of detection: the solver dispatch completes leaving
`linSolver` unbound (`none`) and `_augment` falls through (`none`, a
deferred `UnboundLocalError` at first use) — contradicting the claim of an
immediate ConfigurationError. -/
theorem unknown_strings_counterexample :
    prepareLinSolver [ERat.val 0] [ERat.posInf] "foo" = none
    ∧ selectNNLS "foo" = none
    ∧ augment [] none "foo" 1 [[(1:ℝ)]] [1] 1 1 = none := by
  refine ⟨rfl, rfl, ?_⟩
  simp [augment]

/-- C9 (amended): an unknown penalty-type or solver-name string is not
detected at configuration time: for any `nnlsSolver` outside
{fnnls, nnlsbpp, cvx} the dispatch of lines 183-188 selects nothing (the
local `linSolver` stays unbound and fails only when the solver is later
called), and for any `regtype` outside {tikhonov, tv, huber} `_augment`
falls through with `resreg` unbound; no `SnllsError` is produced at the
point of detection. -/
theorem unknown_strings_fall_through (s rt : String)
    (h1 : s ≠ "fnnls") (h2 : s ≠ "nnlsbpp") (h3 : s ≠ "cvx")
    (g1 : rt ≠ "tikhonov") (g2 : rt ≠ "tv") (g3 : rt ≠ "huber")
    (lbl ubl : List ERat)
    (hc : linearConstrainedFlag lbl ubl = true)
    (hn : nonNegativeOnlyFlag lbl ubl = true)
    (res : List ℝ) (J : Option (List (List ℝ))) (alpha : ℝ)
    (L : List (List ℝ)) (x : List ℝ) (eta : ℝ) (N : ℕ) :
    selectNNLS s = none
    ∧ prepareLinSolver lbl ubl s = none
    ∧ augment res J rt alpha L x eta N = none := by
  have hsel : selectNNLS s = none := by
    simp [selectNNLS, h1, h2, h3]
  refine ⟨hsel, ?_, ?_⟩
  · simp [prepareLinSolver, hc, hn, hsel]
  · simp [augment, g1, g2, g3]

/-- Witness for `unknown_strings_fall_through` at `'foo'`/`'bar'` with the
non-negative linear constraint `lbl = [0]`, `ubl = [+inf]`. -/
theorem unknown_strings_fall_through_witness :
    selectNNLS "foo" = none
    ∧ prepareLinSolver [ERat.val 0] [ERat.posInf] "foo" = none
    ∧ augment [] none "bar" 0 [] [] 0 0 = none :=
  unknown_strings_fall_through "foo" "bar" (by decide) (by decide) (by decide)
    (by decide) (by decide) (by decide) [ERat.val 0] [ERat.posInf]
    (by decide) (by decide) [] none 0 [] [] 0 0

/-- C4 counterexample: `multiStarts = 2` with `lb = [0]` and `ub = [+inf]`
— the nonlinear parameter is unconstrained on its upper bound — does NOT
fail: the guard of line 254 only fires when ALL lower and upper bounds are
infinite, so this configuration passes on to the solvers, contradicting
the claim that an infinite bound on at least one side triggers the error. -/
theorem multistart_guard_counterexample :
    multiStartCheck 2 [ERat.val 0] [ERat.posInf] = Except.ok () := rfl

theorem ltb_posInf_left (b : ERat) : ERat.ltb ERat.posInf b = false := by
  cases b <;> rfl

theorem ltb_negInf_right (a : ERat) : ERat.ltb a ERat.negInf = false := by
  cases a <;> rfl

theorem anyLt_posInf_left (n : ℕ) (l : List ERat) :
    anyLt (List.replicate n ERat.posInf) l = false := by
  rw [anyLt, List.any_eq_false]
  intro q hq
  obtain ⟨a, b⟩ := q
  have h1 : a ∈ List.replicate n ERat.posInf := (List.of_mem_zip hq).1
  rw [List.eq_of_mem_replicate h1]
  simp [ltb_posInf_left]

theorem anyLt_negInf_right (l : List ERat) (n : ℕ) :
    anyLt l (List.replicate n ERat.negInf) = false := by
  rw [anyLt, List.any_eq_false]
  intro q hq
  obtain ⟨a, b⟩ := q
  have h2 : b ∈ List.replicate n ERat.negInf := (List.of_mem_zip hq).2
  rw [List.eq_of_mem_replicate h2]
  simp [ltb_negInf_right]

theorem defaultBound_eq (l : List ERat) (n : ℕ) (c : ERat) (h : l.length = n) :
    (if l.length = 0 then List.replicate n c else l) = l := by
  by_cases h0 : l.length = 0
  · have hl : l = [] := List.length_eq_zero.mp h0
    subst hl
    simp at h
    simp [← h]
  · rw [if_neg h0]

theorem defaultBound_length (l : List ERat) (n : ℕ) (c : ERat)
    (h : l.length = 0 ∨ l.length = n) :
    (if l.length = 0 then List.replicate n c else l).length = n := by
  rcases h with h | h
  · rw [if_pos h, List.length_replicate]
  · rw [defaultBound_eq l n c h, h]

/-- C7: empty bound vectors default to `±inf` of the appropriate length; a
bound vector of the wrong length fails with the DimensionMismatch error
(shown for the nonlinear and the linear bound vectors); an upper bound
strictly below its lower bound fails with InvalidBounds; a start value
outside `[lb, ub]` fails with the out-of-bounds error; and on any
validation failure the error propagates before any solver phase runs, with
no partial result. -/
theorem bounds_validation (par0 : List ℚ) (lb ub lbl ubl : List ERat) (Nlin : ℕ) :
    (validateBounds par0 [] [] [] [] Nlin
        = Except.ok (List.replicate par0.length ERat.negInf,
                     List.replicate par0.length ERat.posInf,
                     List.replicate Nlin ERat.negInf,
                     List.replicate Nlin ERat.posInf))
    ∧ (lb.length ≠ 0 ∧ lb.length ≠ par0.length →
        validateBounds par0 lb ub lbl ubl Nlin
          = Except.error SnllsError.dimensionMismatch)
    ∧ ((lb.length = 0 ∨ lb.length = par0.length) →
       (ub.length = 0 ∨ ub.length = par0.length) →
       lbl.length ≠ 0 ∧ lbl.length ≠ Nlin →
        validateBounds par0 lb ub lbl ubl Nlin
          = Except.error SnllsError.dimensionMismatch)
    ∧ (lb.length = par0.length → ub.length = par0.length →
       lbl.length = Nlin → ubl.length = Nlin →
       (anyLt ub lb = true ∨ anyLt ubl lbl = true) →
        validateBounds par0 lb ub lbl ubl Nlin
          = Except.error SnllsError.invalidBounds)
    ∧ (lb.length = par0.length → ub.length = par0.length →
       lbl.length = Nlin → ubl.length = Nlin →
       anyLt ub lb = false → anyLt ubl lbl = false →
       (anyLt ub (par0.map ERat.val) = true ∨ anyLt (par0.map ERat.val) lb = true) →
        validateBounds par0 lb ub lbl ubl Nlin
          = Except.error SnllsError.startOutOfBounds)
    ∧ (∀ e : SnllsError, validateBounds par0 lb ub lbl ubl Nlin = Except.error e →
        ∀ solverPhase : List ERat × List ERat × List ERat × List ERat → List ℚ,
          snllsValidated par0 lb ub lbl ubl Nlin solverPhase = Except.error e) := by
  refine ⟨?_, ?_, ?_, ?_, ?_, ?_⟩
  · simp [validateBounds, anyLt_posInf_left, anyLt_negInf_right]
  · rintro ⟨h1, h2⟩
    simp [validateBounds, h1, h2]
  · intro hlb hub h
    obtain ⟨h1, h2⟩ := h
    simp only [validateBounds]
    have hfst : ¬((if lb.length = 0 then List.replicate par0.length ERat.negInf else lb).length ≠ par0.length
        ∨ (if ub.length = 0 then List.replicate par0.length ERat.posInf else ub).length ≠ par0.length) := by
      push_neg
      exact ⟨defaultBound_length lb par0.length ERat.negInf hlb,
             defaultBound_length ub par0.length ERat.posInf hub⟩
    rw [if_neg hfst]
    simp [h1, h2]
  · intro hlb hub hlbl hubl hbad
    simp only [validateBounds]
    rw [defaultBound_eq lb par0.length ERat.negInf hlb,
        defaultBound_eq ub par0.length ERat.posInf hub,
        defaultBound_eq lbl Nlin ERat.negInf hlbl,
        defaultBound_eq ubl Nlin ERat.posInf hubl]
    rcases hbad with hb | hb <;> simp [hlb, hub, hlbl, hubl, hb]
  · intro hlb hub hlbl hubl hg1 hg2 hbad
    simp only [validateBounds]
    rw [defaultBound_eq lb par0.length ERat.negInf hlb,
        defaultBound_eq ub par0.length ERat.posInf hub,
        defaultBound_eq lbl Nlin ERat.negInf hlbl,
        defaultBound_eq ubl Nlin ERat.posInf hubl]
    rcases hbad with hb | hb <;> simp [hlb, hub, hlbl, hubl, hg1, hg2, hb]
  · intro e he solverPhase
    simp [snllsValidated, he, Except.map]

/-- Witness for `bounds_validation`: concrete instances of the defaulting
case, the two dimension-mismatch cases, the invalid-bounds case, the
out-of-bounds case, and error propagation to the orchestration. -/
theorem bounds_validation_witness :
    (validateBounds [1] [] [] [] [] 1
        = Except.ok ([ERat.negInf], [ERat.posInf], [ERat.negInf], [ERat.posInf]))
    ∧ (validateBounds [1] [ERat.val 0, ERat.val 0] [] [] [] 1
        = Except.error SnllsError.dimensionMismatch)
    ∧ (validateBounds [1] [] [] [ERat.val 0, ERat.val 0] [] 1
        = Except.error SnllsError.dimensionMismatch)
    ∧ (validateBounds [1] [ERat.val 0] [ERat.val (-1)] [ERat.val 0] [ERat.val 1] 1
        = Except.error SnllsError.invalidBounds)
    ∧ (validateBounds [5] [ERat.val 0] [ERat.val 1] [ERat.val 0] [ERat.val 1] 1
        = Except.error SnllsError.startOutOfBounds)
    ∧ (snllsValidated [5] [ERat.val 0] [ERat.val 1] [ERat.val 0] [ERat.val 1] 1
          (fun _ => ([] : List ℚ)) = Except.error SnllsError.startOutOfBounds) := by
  have hoob : validateBounds [5] [ERat.val 0] [ERat.val 1] [ERat.val 0] [ERat.val 1] 1
      = Except.error SnllsError.startOutOfBounds :=
    (bounds_validation [5] [ERat.val 0] [ERat.val 1] [ERat.val 0] [ERat.val 1] 1).2.2.2.2.1
      rfl rfl rfl rfl
      (by norm_num [anyLt, ERat.ltb])
      (by norm_num [anyLt, ERat.ltb])
      (Or.inl (by norm_num [anyLt, ERat.ltb]))
  refine ⟨?_, ?_, ?_, ?_, hoob, ?_⟩
  · exact (bounds_validation [1] [] [] [] [] 1).1
  · exact (bounds_validation [1] [ERat.val 0, ERat.val 0] [] [] [] 1).2.1
      ⟨by norm_num, by norm_num⟩
  · exact (bounds_validation [1] [] [] [ERat.val 0, ERat.val 0] [] 1).2.2.1
      (Or.inl rfl) (Or.inl rfl) ⟨by norm_num, by norm_num⟩
  · exact (bounds_validation [1] [ERat.val 0] [ERat.val (-1)] [ERat.val 0] [ERat.val 1] 1).2.2.2.1
      rfl rfl rfl rfl (Or.inl (by norm_num [anyLt, ERat.ltb]))
  · exact (bounds_validation [5] [ERat.val 0] [ERat.val 1] [ERat.val 0] [ERat.val 1] 1).2.2.2.2.2
      SnllsError.startOutOfBounds hoob (fun _ => [])

/-- C8 counterexample: after a first multi-start attempt that evaluated
`p = [1]` (selecting `α = 5` via the selection routine), the shared closure
state enters the second attempt with `check` already set and the first
attempt's `α` cached, so the second attempt's FIRST objective call at
`p = [1]` reuses the first attempt's `α` without any selection — whereas a
state recreated per attempt (`initState`) would invoke the selection
routine.  The state is therefore shared across attempts, contradicting the
claim. -/
theorem shared_state_counterexample :
    stateAfterAttempts selregDemo (RegParam.method "aic") (1 / 1000) true 1 [[[1]]]
      = { check := true, par_prev := [1], regparam_prev := 5 }
    ∧ (alphaUpdate selregDemo (RegParam.method "aic") (1 / 1000) true
        (stateAfterAttempts selregDemo (RegParam.method "aic") (1 / 1000) true 1 [[[1]]])
        [1]).2.2 = false
    ∧ (alphaUpdate selregDemo (RegParam.method "aic") (1 / 1000) true
        (initState 1) [1]).2.2 = true := by
  have h1 : stateAfterAttempts selregDemo (RegParam.method "aic") (1 / 1000) true 1 [[[1]]]
      = { check := true, par_prev := [1], regparam_prev := 5 } := by
    simp [stateAfterAttempts, initState, alphaUpdate, reuseCond, selregDemo]
  refine ⟨h1, ?_, ?_⟩
  · rw [h1]
    simp [alphaUpdate, reuseCond]
  · simp [alphaUpdate, reuseCond, initState]

/-- C8 (amended): the evaluator closure state is created once before the
multi-start loop (`initState`) and the same mutable state is threaded
through all attempts: appending one more attempt folds the α-update over
its calls starting FROM the state left by the previous attempts (never from
a fresh state), and the multi-start loop passes each attempt's exit state
into the next attempt, so later attempts' α-reuse decisions can depend on
earlier attempts. -/
theorem shared_state_threading (selreg : List ℚ → ℚ) (regparam : RegParam)
    (thr : ℚ) (inc : Bool) (W : ℕ)
    (as : List (List (List ℚ))) (a : List (List ℚ))
    (solveAttempt : List ℚ → IterState → List ℚ × List ℚ × ℚ × IterState)
    (s : List ℚ) (rest : List (List ℚ)) (st0 : IterState) :
    stateAfterAttempts selreg regparam thr inc W (as ++ [a])
      = a.foldl (fun st p => (alphaUpdate selreg regparam thr inc st p).2.1)
          (stateAfterAttempts selreg regparam thr inc W as)
    ∧ stateAfterAttempts selreg regparam thr inc W [] = initState W
    ∧ (runAttempts solveAttempt (s :: rest) st0).2
        = (runAttempts solveAttempt rest (solveAttempt s st0).2.2.2).2 := by
  refine ⟨?_, rfl, ?_⟩
  · simp [stateAfterAttempts, List.foldl_append]
  · rcases hsa : solveAttempt s st0 with ⟨x, lin, cost, st1⟩
    simp [runAttempts, hsa]

theorem argmin_lt_length : ∀ (l : List ℚ), l ≠ [] → argmin l < l.length
  | [], h => absurd rfl h
  | [x], _ => by simp [argmin]
  | x :: y :: rest, _ => by
      have ih := argmin_lt_length (y :: rest) (by simp)
      by_cases hc : (y :: rest).getD (argmin (y :: rest)) 0 < x
      · simp only [argmin, if_pos hc, List.length_cons]
        simp only [List.length_cons] at ih
        omega
      · simp only [argmin, if_neg hc]
        simp

theorem argmin_getD_le : ∀ (l : List ℚ) (z : ℚ), z ∈ l → l.getD (argmin l) 0 ≤ z
  | [], _, hz => by simp at hz
  | [x], z, hz => by
      simp at hz
      subst hz
      simp [argmin]
  | x :: y :: rest, z, hz => by
      by_cases hc : (y :: rest).getD (argmin (y :: rest)) 0 < x
      · simp only [argmin, if_pos hc, List.getD_cons_succ]
        rcases List.mem_cons.mp hz with h | h
        · subst h
          exact le_of_lt hc
        · exact argmin_getD_le (y :: rest) z h
      · simp only [argmin, if_neg hc, List.getD_cons_zero]
        push_neg at hc
        rcases List.mem_cons.mp hz with h | h
        · subst h
          exact le_rfl
        · exact hc.trans (argmin_getD_le (y :: rest) z h)

theorem runAttempts_length
    (solveAttempt : List ℚ → IterState → List ℚ × List ℚ × ℚ × IterState)
    (seeds : List (List ℚ)) :
    ∀ st0, (runAttempts solveAttempt seeds st0).1.length = seeds.length := by
  induction seeds with
  | nil => intro st0; rfl
  | cons s rest ih =>
      intro st0
      rcases hsa : solveAttempt s st0 with ⟨x, lin, cost, st1⟩
      simp [runAttempts, hsa, ih st1]

theorem getD_costs_map :
    ∀ (results : List (List ℚ × List ℚ × ℚ)) (j : ℕ), j < results.length →
      (results.map fun r => r.2.2).getD j 0 = (results.getD j ([], [], 0)).2.2 := by
  intro results
  induction results with
  | nil => intro j h; simp at h
  | cons r rs ih =>
      intro j h
      cases j with
      | zero => simp
      | succ n =>
          simp only [List.map_cons, List.getD_cons_succ]
          exact ih n (by simpa using h)

theorem seed_within_bounds (c : ℚ) (hc0 : 0 ≤ c) (hc1 : c ≤ 1)
    (lb ub : List ℚ) (h : List.Forall₂ (· ≤ ·) lb ub) :
    List.Forall₂ (· ≤ ·) lb ((lb.zip ub).map fun q => q.1 + c * (q.2 - q.1))
    ∧ List.Forall₂ (· ≤ ·) ((lb.zip ub).map fun q => q.1 + c * (q.2 - q.1)) ub := by
  induction h with
  | nil => exact ⟨List.Forall₂.nil, List.Forall₂.nil⟩
  | @cons a b l1 l2 hab htail ih =>
      refine ⟨List.Forall₂.cons ?_ ih.1, List.Forall₂.cons ?_ ih.2⟩
      · dsimp only
        nlinarith [mul_nonneg hc0 (sub_nonneg.mpr hab)]
      · dsimp only
        nlinarith [mul_nonneg (sub_nonneg.mpr hc1) (sub_nonneg.mpr hab)]

theorem multiStartLoop_eq
    (solveAttempt : List ℚ → IterState → List ℚ × List ℚ × ℚ × IterState)
    (seeds : List (List ℚ)) (st0 : IterState) :
    multiStartLoop solveAttempt seeds st0
      = (((runAttempts solveAttempt seeds st0).1.getD
            (argmin ((runAttempts solveAttempt seeds st0).1.map fun r => r.2.2))
            ([], [], 0)).1,
         ((runAttempts solveAttempt seeds st0).1.getD
            (argmin ((runAttempts solveAttempt seeds st0).1.map fun r => r.2.2))
            ([], [], 0)).2.1) := by
  rcases hra : runAttempts solveAttempt seeds st0 with ⟨results, stF⟩
  simp [multiStartLoop, hra]

/-- C4 (amended): the multi-start guard fails with the configuration error
if and only if `multiStarts > 1` AND the nonlinear parameters are fully
unconstrained — EVERY lower and EVERY upper bound infinite; a single
infinite bound does not trigger it.  With bounded nonlinear parameters,
`numStarts` seed vectors inside `[lb, ub]` are generated (seed generator
modelled from the spec) and the attempt with minimum final cost is
selected. -/
theorem multistart_guard_and_selection (m : ℕ) (lb ub : List ERat)
    (numStarts : ℕ) (par0 lbq ubq : List ℚ)
    (solveAttempt : List ℚ → IterState → List ℚ × List ℚ × ℚ × IterState)
    (seeds : List (List ℚ)) (st0 : IterState) :
    (multiStartCheck m lb ub = Except.error SnllsError.configurationError
       ↔ 1 < m ∧ lb.all ERat.isInf = true ∧ ub.all ERat.isInf = true)
    ∧ (1 < numStarts → (multistarts numStarts par0 lbq ubq).length = numStarts)
    ∧ (1 < numStarts → List.Forall₂ (· ≤ ·) lbq ubq →
        ∀ sd ∈ multistarts numStarts par0 lbq ubq,
          List.Forall₂ (· ≤ ·) lbq sd ∧ List.Forall₂ (· ≤ ·) sd ubq)
    ∧ (seeds ≠ [] →
        multiStartLoop solveAttempt seeds st0
          = (((runAttempts solveAttempt seeds st0).1.getD
                (argmin ((runAttempts solveAttempt seeds st0).1.map fun r => r.2.2))
                ([], [], 0)).1,
             ((runAttempts solveAttempt seeds st0).1.getD
                (argmin ((runAttempts solveAttempt seeds st0).1.map fun r => r.2.2))
                ([], [], 0)).2.1)
        ∧ ∀ r ∈ (runAttempts solveAttempt seeds st0).1,
            ((runAttempts solveAttempt seeds st0).1.getD
                (argmin ((runAttempts solveAttempt seeds st0).1.map fun r => r.2.2))
                ([], [], 0)).2.2 ≤ r.2.2) := by
  refine ⟨?_, ?_, ?_, ?_⟩
  · cases hb : (decide (m > 1) && !nonLinearConstrained lb ub) with
    | true =>
        have h12 : decide (m > 1) = true ∧ (!nonLinearConstrained lb ub) = true := by
          simpa using hb
        obtain ⟨h1, h2⟩ := h12
        have hm : 1 < m := of_decide_eq_true h1
        have hnc : nonLinearConstrained lb ub = false := by
          cases hx : nonLinearConstrained lb ub
          · rfl
          · rw [hx] at h2
            simp at h2
        have hall : lb.all ERat.isInf = true ∧ ub.all ERat.isInf = true := by
          have h := hnc
          rw [nonLinearConstrained] at h
          simp only [Bool.or_eq_false_iff, Bool.not_eq_false'] at h
          exact h
        simp [multiStartCheck, hb, hm, hall.1, hall.2, hnc]
    | false =>
        simp only [multiStartCheck, hb, Bool.false_eq_true, if_false]
        constructor
        · intro h
          exact absurd h (by simp)
        · intro h
          obtain ⟨hm, h1, h2⟩ := h
          have htrue : (decide (m > 1) && !nonLinearConstrained lb ub) = true := by
            rw [Bool.and_eq_true]
            refine ⟨decide_eq_true hm, ?_⟩
            simp [nonLinearConstrained, h1, h2]
          rw [hb] at htrue
          exact absurd htrue (by simp)
  · intro h
    rw [multistarts, if_neg (by omega)]
    simp
  · intro h hord sd hsd
    rw [multistarts, if_neg (by omega)] at hsd
    simp only [List.mem_map, List.mem_range] at hsd
    obtain ⟨j, hj, rfl⟩ := hsd
    have hc0 : (0:ℚ) ≤ ((j:ℚ) + 1) / ((numStarts:ℚ) + 1) := by positivity
    have hc1 : ((j:ℚ) + 1) / ((numStarts:ℚ) + 1) ≤ 1 := by
      rw [div_le_one (by positivity)]
      have hcast : (j:ℚ) < (numStarts:ℚ) := by exact_mod_cast hj
      linarith
    exact seed_within_bounds _ hc0 hc1 lbq ubq hord
  · intro hne
    refine ⟨multiStartLoop_eq solveAttempt seeds st0, ?_⟩
    intro r hr
    have hlen : (runAttempts solveAttempt seeds st0).1.length = seeds.length :=
      runAttempts_length solveAttempt seeds st0
    have hresne : (runAttempts solveAttempt seeds st0).1 ≠ [] := by
      intro h0
      rw [h0] at hlen
      exact hne (List.length_eq_zero.mp hlen.symm)
    have hfne : ((runAttempts solveAttempt seeds st0).1.map fun r => r.2.2) ≠ [] := by
      simpa using hresne
    have hj := argmin_lt_length
      ((runAttempts solveAttempt seeds st0).1.map fun r => r.2.2) hfne
    rw [List.length_map] at hj
    have hz : r.2.2 ∈ (runAttempts solveAttempt seeds st0).1.map fun r => r.2.2 :=
      List.mem_map_of_mem _ hr
    have hle := argmin_getD_le
      ((runAttempts solveAttempt seeds st0).1.map fun r => r.2.2) r.2.2 hz
    rwa [getD_costs_map (runAttempts solveAttempt seeds st0).1 _ hj] at hle

/-- Witness for `multistart_guard_and_selection`: the guard fires for two
starts with all bounds infinite; two seeds are generated within the bounds
for a concrete bounded problem; and the minimum-cost attempt bounds every
attempt's cost in a concrete three-start run. -/
theorem multistart_guard_and_selection_witness :
    multiStartCheck 2 [ERat.negInf] [ERat.posInf]
      = Except.error SnllsError.configurationError
    ∧ (multistarts 2 [0] [0] [1]).length = 2
    ∧ List.Forall₂ (· ≤ ·) [(0:ℚ)] [(0:ℚ)]
    ∧ ((runAttempts solveDemo [[3], [1], [2]] (initState 1)).1.getD
        (argmin ((runAttempts solveDemo [[3], [1], [2]] (initState 1)).1.map
          fun r => r.2.2)) ([], [], 0)).2.2 ≤ 3 := by
  have hthm := multistart_guard_and_selection 2 [ERat.negInf] [ERat.posInf]
    2 [0] [0] [1] solveDemo [[3], [1], [2]] (initState 1)
  refine ⟨hthm.1.mpr ⟨by norm_num, rfl, rfl⟩, hthm.2.1 (by norm_num), ?_, ?_⟩
  · have hthm0 := multistart_guard_and_selection 2 [ERat.negInf] [ERat.posInf]
      2 [0] [0] [0] solveDemo [[3], [1], [2]] (initState 1)
    have hmem : [(0:ℚ)] ∈ multistarts 2 [0] [0] [0] := by
      norm_num [multistarts, List.range_succ]
    exact (hthm0.2.2.1 (by norm_num)
      (List.Forall₂.cons le_rfl List.Forall₂.nil) [0] hmem).1
  · refine (hthm.2.2.2 (by simp)).2 ([3], [1], (3:ℚ)) ?_
    simp [runAttempts, solveDemo]

theorem map_zip_snd {α β γ : Type} (r : List α) (L : List β) (g : β → γ)
    (h : r.length = L.length) :
    (r.zip L).map (fun q => g q.2) = L.map g := by
  induction L generalizing r with
  | nil => simp
  | cons b bs ih =>
      cases r with
      | nil => simp at h
      | cons a as =>
          simp only [List.zip_cons_cons, List.map_cons]
          simp only [List.length_cons, Nat.succ.injEq] at h
          rw [ih as h]

/-- C5: for `r = L·x`, `_augment` computes exactly the spec's formulas:
tikhonov penalty residual `α·r` with Jacobian `α·L`; total-variation
residual `α·(r²+ε)^(1/4)` with Jacobian `α·(1/2)·(r²+ε)^(−3/4)·r·L`; huber
residual `α·sqrt(sqrt((r/η)²+1) − 1)` with Jacobian
`α·(1/(2η²))·((sqrt((r/η)²+1)−1+ε)^(−1/2))·((r/η)²+1+ε)^(−1/2)·r·L`, with
`ε` machine epsilon; and when a Jacobian is supplied, the appended block
has `Nnonlin` zero columns followed by the penalty Jacobian, stacked below
the data Jacobian. -/
theorem augment_formulas (res : List ℝ) (J : List (List ℝ)) (alpha : ℝ)
    (L : List (List ℝ)) (x : List ℝ) (eta : ℝ) (Nnonlin : ℕ) :
    (augment res (some J) "tikhonov" alpha L x eta Nnonlin
      = some (res ++ (matVec L x).map (fun t => penaltyResidualSpec "tikhonov" alpha t eta),
              some (J ++ ((matVec L x).zip L).map fun q =>
                List.replicate Nnonlin (0:ℝ)
                  ++ q.2.map fun e => penaltyJacobianFactorSpec "tikhonov" alpha q.1 eta * e)))
    ∧ (augment res (some J) "tv" alpha L x eta Nnonlin
      = some (res ++ (matVec L x).map (fun t => penaltyResidualSpec "tv" alpha t eta),
              some (J ++ ((matVec L x).zip L).map fun q =>
                List.replicate Nnonlin (0:ℝ)
                  ++ q.2.map fun e => penaltyJacobianFactorSpec "tv" alpha q.1 eta * e)))
    ∧ (augment res (some J) "huber" alpha L x eta Nnonlin
      = some (res ++ (matVec L x).map (fun t => penaltyResidualSpec "huber" alpha t eta),
              some (J ++ ((matVec L x).zip L).map fun q =>
                List.replicate Nnonlin (0:ℝ)
                  ++ q.2.map fun e => penaltyJacobianFactorSpec "huber" alpha q.1 eta * e))) := by
  refine ⟨?_, ?_, ?_⟩
  · have hJ : ((matVec L x).zip L).map
        (fun q => List.replicate Nnonlin (0:ℝ) ++ q.2.map fun e => alpha * e)
        = L.map (fun row => List.replicate Nnonlin (0:ℝ) ++ row.map fun e => alpha * e) :=
      map_zip_snd (matVec L x) L
        (fun row => List.replicate Nnonlin (0:ℝ) ++ row.map fun e => alpha * e)
        (by simp [matVec])
    simp [augment, penaltyResidualSpec, penaltyJacobianFactorSpec, List.map_map,
          Function.comp, hJ]
  · simp [augment, penaltyResidualSpec, penaltyJacobianFactorSpec, List.map_map,
          Function.comp]
    intro a b _ e _
    exact Or.inl (by ring)
  · simp [augment, penaltyResidualSpec, penaltyJacobianFactorSpec, List.map_map,
          Function.comp]
    intro a b _ e _
    exact Or.inl (by ring)


end DeerLab
